import Mathlib

/-!
Verification development for the horse-racing scraper (scripts/rpscrape.py and
scripts/retry_failed.py), as a shallow embedding in Lean.

Strings are handled at the level of their character lists (`String.data`):
Python's `str.split` with a one-character separator, one-character
`str.replace`, and `str[:n]` slicing are embedded as structural functions on
`List Char`, and the lexicographic string order used by Python's `sorted` is
embedded as the lexicographic order on `List Char` (code-point wise), so that
everything evaluates inside the kernel.

Network fetches, the lxml document builder, and the record extractor
(`utils/race.py`, not part of the pipeline core) are modelled as environment
functions supplied to the pipeline; everything the pipeline itself does with
their results is translated from the source.
-/

/-- Worker-count clamp. Embeds `max(1, min(10, jobs))`, which appears verbatim
at rpscrape.py:128 (`scrape_races`) and retry_failed.py:61 (`main`). -/
def clampJobs (j : Int) : Int := max 1 (min 10 j)

/-- Python `text.split(sep)` for a one-character separator, on character lists.
`splitCharList c l` splits `l` at every occurrence of `c`; like Python,
the empty list yields `[[]]` and separators at the ends yield empty segments. -/
def splitCharList (sep : Char) : List Char → List (List Char)
  | [] => [[]]
  | c :: cs =>
    let rest := splitCharList sep cs
    if c = sep then [] :: rest
    else
      match rest with
      | [] => [[c]]
      | r :: rs => (c :: r) :: rs

/-- Python `s.split(sep)` for a one-character separator. -/
def splitChar (sep : Char) (s : String) : List String :=
  (splitCharList sep s.data).map String.mk

/-- Python `s.replace(c, r)` for one-character pattern and replacement. -/
def replaceChar (c r : Char) (s : String) : String :=
  String.mk (s.data.map (fun x => if x = c then r else x))

/-- Python `s.replace(c, '')` for a one-character pattern: drop every
occurrence of `c`. -/
def removeChar (c : Char) (s : String) : String :=
  String.mk (s.data.filter (fun x => x != c))

/-- The apostrophe character (code point 39), the character removed from race
URLs by `get_race_urls` (rpscrape.py:64). -/
def apostrophe : Char := Char.ofNat 39

/-- Python `s[:n]`: the first `n` characters of `s`. -/
def strTake (s : String) (n : Nat) : String := String.mk (s.data.take n)

/-- Insert a string into a list that is kept sorted (by the code-point
lexicographic order) and duplicate-free.  Building a list with repeated
`insertNoDup` is the embedding of Python's `sorted(set_of_strings)`:
the result is determined by the member set alone, sorted ascending. -/
def insertNoDup (x : String) : List String → List String
  | [] => [x]
  | y :: ys =>
    if x = y then y :: ys
    else if x.data < y.data then x :: y :: ys
    else y :: insertNoDup x ys

/-- Python `sorted(set(l))` for a list of strings: the ascending-sorted,
duplicate-free list with the same members as `l`. -/
def sortedSet (l : List String) : List String :=
  l.foldl (fun acc x => insertNoDup x acc) []

/-- One iteration of the log-parsing loop of `extract_dates`
(retry_failed.py:25-32): split the line on `/`; skip it unless it has at
least two segments; take the second-to-last segment (`parts[-2]`); keep it
only when it splits into exactly three `-`-separated parts. -/
def lineDate (line : String) : Option String :=
  let parts := splitChar '/' line
  if parts.length < 2 then none
  else
    let date_part := parts.getD (parts.length - 2) ""
    if (splitChar '-' date_part).length = 3 then some date_part else none

/-- Embeds `extract_dates` (retry_failed.py:23-33).  The log file's content is
modelled as its list of lines (Python reads it with `splitlines()`); the
Python `set` accumulation followed by `sorted(...)` is `sortedSet`. -/
def extract_dates (logLines : List String) : List String :=
  sortedSet (logLines.filterMap lineDate)

/-- Outcome of the record extractor `Race(...)` (rpscrape.py:143-146): a parsed
race with its type string and csv rows, a `VoidRaceError`, or any other
exception. The extractor itself lives in utils/race.py, outside the pipeline
core; only its outcome shape matters to `process`. -/
inductive RaceOutcome where
  | parsed (r_type : String) (csv_data : List String)
  | voidRace
  | parseFailure (msg : String)
deriving DecidableEq

/-- The external collaborators a fetch-parse worker interacts with:
`fetch` is `requests.get` (returning the response body or raising),
`fromstring` is `lxml.html.fromstring` (building a document from the body or
raising, e.g. `ParserError` on an empty body), and `parseRace` is the
`Race(...)` extractor applied to the document. -/
structure WorkerEnv where
  fetch : String → Except String String
  fromstring : String → Except String String
  parseRace : String → RaceOutcome

/-- The fixed set of jump-race types accepted under the `jumps` discipline
(rpscrape.py:157). -/
def jumpsTypes : List String := ["Chase", "Hurdle", "NH Flat"]

/-- Embeds the worker `process` (rpscrape.py:131-161).  A `.ok (idx, rows)`
value is the worker's return; `.error e` means an exception propagates out of
the worker.  The translation follows the source exactly: `requests.get` is
wrapped in try/except (line 134-138), `html.fromstring` at line 140 is NOT
inside any try block so its exception propagates, the `Race(...)` call is
wrapped in try/except catching `VoidRaceError` and any other exception
(lines 142-152), and the discipline filter (lines 154-159) degrades a
mismatch to `(idx, [])`. -/
def process (env : WorkerEnv) (code : String) (idx : Nat) (url : String) :
    Except String (Nat × List String) :=
  match env.fetch url with
  | .error _ => .ok (idx, [])
  | .ok content =>
    match env.fromstring content with
    | .error e => .error e
    | .ok doc =>
      match env.parseRace doc with
      | .voidRace => .ok (idx, [])
      | .parseFailure _ => .ok (idx, [])
      | .parsed r_type csv_data =>
        if code = "flat" ∧ r_type ≠ "Flat" then .ok (idx, [])
        else if code = "jumps" ∧ r_type ∉ jumpsTypes then .ok (idx, [])
        else .ok (idx, csv_data)

/-- The rows a worker future contributes (second component of its pair). -/
def okRows (r : Except String (Nat × List String)) : List String :=
  match r with
  | .ok v => v.2
  | .error _ => []

/-- The multiset of batch results of one run, listed in input order:
job `i` is `(i, url_i)` with indices assigned by `enumerate(race_urls,
start=1)` (rpscrape.py:165).  When no worker raises, this is exactly the set
of values the futures deliver (in some completion order). -/
def canonicalResults (env : WorkerEnv) (code : String) (urls : List String) :
    List (Nat × List String) :=
  (List.enumFrom 1 urls).map (fun p => (p.1, okRows (process env code p.1 p.2)))

/-- Insert a batch result into a list sorted by index.  Repeated insertion
embeds `results.sort(key=lambda x: x[0])` (rpscrape.py:169); since the
indices of a run are pairwise distinct, any sort by this key produces the
same list, which `sorted_key_eq` below makes precise. -/
def insertByIdx (x : Nat × List String) :
    List (Nat × List String) → List (Nat × List String)
  | [] => [x]
  | y :: ys => if x.1 ≤ y.1 then x :: y :: ys else y :: insertByIdx x ys

/-- Sort a list of batch results by index (rpscrape.py:169). -/
def sortResults (l : List (Nat × List String)) : List (Nat × List String) :=
  l.foldr insertByIdx []

/-- Embeds the output-writing block of `scrape_races` (rpscrape.py:171-175):
given the buffered batch results in the order the futures completed, sort
them by index, then emit the csv header followed by every row of every
result in that sorted order. -/
def writeOutput (csv_header : String) (completed : List (Nat × List String)) :
    List String :=
  csv_header :: (sortResults completed).flatMap (fun r => r.2)

/-- Observable actions of one `scrape_races` call, in program order. -/
inductive ScrapeEvent where
  | mkDir (path : String)
  | betfairBuild (urls : List String)
  | betfairWrite (path : String)
  | reportNoRaces
  | pool (workers : Int)
  | submitJob (idx : Nat) (url : String)
  | writeMain (path : String) (lines : List String)
  | reportFinished
deriving DecidableEq

/-- Embeds `scrape_races` (rpscrape.py:87-178) as its trace of observable
actions, in the order the source performs them:
create the output directory (lines 99-100); if betfair enrichment is both
requested by the caller and enabled in settings (`fetch_betfair and
settings.toml and settings.toml.get('betfair_data', False)`, line 106 —
modelled by the two booleans), build the side dataset from the whole URL
list and write the side artifact (lines 107-121); only THEN check for an
empty URL list and return reporting zero work (lines 123-126); otherwise
clamp the worker count, spin up the pool, submit one job per URL with
1-based indices, and finally write the main artifact from the buffered,
index-sorted results.  `completed` stands for the batch results in the
order `as_completed` delivered them (rpscrape.py:166-167). -/
def scrape_races (urls : List String)
    (folder_name file_name file_extension code csv_header : String)
    (fetch_betfair settings_betfair : Bool) (jobs : Int)
    (completed : List (Nat × List String)) : List ScrapeEvent :=
  let outDir := "../data/" ++ folder_name ++ "/" ++ code
  let filePath := outDir ++ "/" ++ file_name ++ "." ++ file_extension
  let betfairDir := "../data/betfair/" ++ folder_name ++ "/" ++ code
  let startEvents := [ScrapeEvent.mkDir outDir]
  let betfairEvents :=
    if fetch_betfair && settings_betfair then
      [ScrapeEvent.betfairBuild urls,
       ScrapeEvent.mkDir betfairDir,
       ScrapeEvent.betfairWrite (betfairDir ++ "/" ++ file_name ++ ".csv")]
    else []
  if urls.length = 0 then
    startEvents ++ betfairEvents ++ [ScrapeEvent.reportNoRaces]
  else
    startEvents ++ betfairEvents
      ++ ScrapeEvent.pool (clampJobs jobs)
          :: (List.enumFrom 1 urls).map (fun p => ScrapeEvent.submitJob p.1 p.2)
      ++ [ScrapeEvent.writeMain filePath (writeOutput csv_header completed),
          ScrapeEvent.reportFinished]

/-- One entry of a decoded course/year listing response
(`principleRaceResults`, rpscrape.py:54-62): the fields `get_race_urls`
reads.  Decoding the JSON response is modelled as an external input. -/
structure RaceEntry where
  raceDatetime : String
  raceInstanceUid : String
deriving DecidableEq

/-- The URL `get_race_urls` builds for one race (rpscrape.py:61-64):
`f'{url_result_base}/{course_id}/{course}/{race_date}/{race_id}'` with
`race_date = race['raceDatetime'][:10]`, then spaces replaced by hyphens and
apostrophes removed. -/
def raceUrl (course_id course : String) (race : RaceEntry) : String :=
  removeChar apostrophe (replaceChar ' ' '-'
    ("https://www.racingpost.com/results/" ++ course_id ++ "/" ++ course ++ "/"
      ++ strTake race.raceDatetime 10 ++ "/" ++ race.raceInstanceUid))

/-- Embeds `get_race_urls` (rpscrape.py:44-66): for every `(course_id,
course)` track and every year, read the listing (`listing course_id year`
models the fetched-and-decoded response; an empty list is the `if not races:
continue` case), build each race URL, accumulate into a set, and return it
sorted. -/
def get_race_urls (listing : String → String → List RaceEntry)
    (tracks : List (String × String)) (years : List String) : List String :=
  sortedSet (tracks.flatMap (fun t =>
    years.flatMap (fun year => (listing t.1 year).map (raceUrl t.1 t.2))))

/-- Embeds `get_race_urls_date` (rpscrape.py:69-84): for every date, collect
the course-link `href`s of the fetched results page (`anchors d` models the
xpath result), keep those whose third `/`-segment (`href.split('/')[2]`) is
a configured course id, prefix the site origin, accumulate into a set and
return it sorted.  (For an href with fewer than three segments the Python
expression raises IndexError and the whole call crashes before returning;
the embedding totalises that access with a default, which only affects runs
that never return a list.) -/
def get_race_urls_date (anchors : String → List String) (courseIds : List String)
    (dates : List String) : List String :=
  sortedSet (dates.flatMap (fun d =>
    (anchors d).filterMap (fun href =>
      if (splitChar '/' href).getD 2 "" ∈ courseIds then
        some ("https://www.racingpost.com" ++ href)
      else none)))

/-- Observable actions of one `retry_failed.main` invocation, in program
order. -/
inductive REvent where
  | reportMissing
  | reportNoRegion
  | reportNoDates
  | backupCopy (path : String)
  | truncateLog
  | subRun (dateArg : String) (region : String) (jobs : Int)
  | reportDone
deriving DecidableEq

/-- Final state and trace of one `retry_failed.main` invocation.
`log` is the log file's content (as lines) after the run, `backup` the
content of the backup path after the run (`none` = no file), `exit` the
process exit code (`none` = the run died with an uncaught exception). -/
structure RetryResult where
  events : List REvent
  log : List String
  backup : Option (List String)
  exit : Option Int
deriving DecidableEq

/-- Embeds region resolution (retry_failed.py:44-50): an explicit `--region`
argument wins; otherwise take the path segment right after the first `dates`
segment of the log path.  A missing `dates` segment raises ValueError, which
the source catches (`region` stays unset, `.ok none`); `dates` being the
last segment raises IndexError, which the source does NOT catch
(`.error ()`, the process dies). -/
def resolveRegion (regionArg : Option String) (parts : List String) :
    Except Unit (Option String) :=
  match regionArg with
  | some r => .ok (some r)
  | none =>
    match parts.findIdx? (fun s => s == "dates") with
    | none => .ok none
    | some i =>
      match parts[i + 1]? with
      | none => .error ()
      | some r => .ok (some r)

/-- The backup path of a log (retry_failed.py:63):
`log_path.with_suffix(log_path.suffix + '.bak')` replaces the existing
suffix with itself plus `.bak`, i.e. it appends `.bak` to the path. -/
def backupPathOf (logPath : String) : String := logPath ++ ".bak"

/-- Whether a retry event mutates the log file or its backup. -/
def isMutation : REvent → Bool
  | REvent.backupCopy _ => true
  | REvent.truncateLog => true
  | _ => false

/-- Embeds `retry_failed.main` (retry_failed.py:36-81).  Inputs: the log path
string, whether the log file exists, its content as lines, the pre-existing
content of the backup path, `Path(log).parts` of the resolved path, the
optional `--region` argument, and the `--jobs` argument.  The translation
follows the source order exactly: missing log → report and exit 1; resolve
the region, exiting 1 when none results (and dying on the uncaught
IndexError case); extract the dates, exiting 0 when none; clamp the worker
count; copy the log to the backup path (overwriting it), truncate the log,
then launch one sub-run per date (with `-` replaced by `/` in the date
argument), and finish with exit code 0. -/
def retryMain (logPath : String) (logExists : Bool) (logLines : List String)
    (backup0 : Option (List String)) (parts : List String)
    (regionArg : Option String) (jobsArg : Int) : RetryResult :=
  if logExists then
    match resolveRegion regionArg parts with
    | .error _ => ⟨[], logLines, backup0, none⟩
    | .ok ro =>
      let region := ro.getD ""
      if region = "" then ⟨[REvent.reportNoRegion], logLines, backup0, some 1⟩
      else
        let dates := extract_dates logLines
        if dates.isEmpty then ⟨[REvent.reportNoDates], logLines, backup0, some 0⟩
        else
          let jobs := clampJobs jobsArg
          ⟨REvent.backupCopy (backupPathOf logPath) :: REvent.truncateLog ::
              (dates.map (fun d => REvent.subRun (replaceChar '-' '/' d) region jobs)
                ++ [REvent.reportDone]),
            [], some logLines, some 0⟩
  else ⟨[REvent.reportMissing], logLines, backup0, some 1⟩

/-- Concrete worker environment where every stage succeeds and the rows of a
job are its own URL (used to instantiate theorems at concrete inputs). -/
def envEcho : WorkerEnv where
  fetch := fun u => .ok u
  fromstring := fun c => .ok c
  parseRace := fun d => .parsed "Flat" [d]

/-- Concrete worker environment whose document builder raises, as
`lxml.html.fromstring` does on an empty response body. -/
def envCrash : WorkerEnv where
  fetch := fun u => .ok u
  fromstring := fun _ => .error "ParserError: Document is empty"
  parseRace := fun _ => .voidRace

/-- Concrete worker environment whose network fetch raises. -/
def envFetchFail : WorkerEnv where
  fetch := fun _ => .error "ConnectionError"
  fromstring := fun c => .ok c
  parseRace := fun d => .parsed "Flat" [d]

/-- Concrete worker environment that parses every document to a race of the
given type. -/
def envRace (rt : String) : WorkerEnv where
  fetch := fun u => .ok u
  fromstring := fun c => .ok c
  parseRace := fun _ => .parsed rt ["row"]

/-- Concrete course/year listing with two races (used in witnesses). -/
def listingC : String → String → List RaceEntry :=
  fun _ _ => [⟨"2024-05-01T13:00", "101"⟩, ⟨"2024-05-01T14:00", "77"⟩]

/-- Concrete date-page anchor extractor (used in witnesses). -/
def anchorsC : String → List String :=
  fun d => ["/results/2/ascot/" ++ d ++ "/777", "/results/9/york/" ++ d ++ "/8"]

/-! ### Properties of the sorted-set accumulator (`sorted(set(...))`) -/

theorem mem_insertNoDup (x : String) (l : List String) (y : String) :
    y ∈ insertNoDup x l ↔ y = x ∨ y ∈ l := by
  induction l with
  | nil => simp [insertNoDup]
  | cons z zs ih =>
    unfold insertNoDup
    by_cases h1 : x = z
    · rw [if_pos h1]
      subst h1
      simp only [List.mem_cons]
      tauto
    · rw [if_neg h1]
      by_cases h2 : x.data < z.data
      · rw [if_pos h2]
        simp only [List.mem_cons]
      · rw [if_neg h2]
        simp only [List.mem_cons, ih]
        tauto

theorem pairwise_insertNoDup (x : String) (l : List String)
    (h : l.Pairwise (fun a b => a.data < b.data)) :
    (insertNoDup x l).Pairwise (fun a b => a.data < b.data) := by
  induction l with
  | nil => simp [insertNoDup]
  | cons z zs ih =>
    rcases List.pairwise_cons.mp h with ⟨hz, hzs⟩
    unfold insertNoDup
    by_cases h1 : x = z
    · rw [if_pos h1]; exact h
    · rw [if_neg h1]
      by_cases h2 : x.data < z.data
      · rw [if_pos h2]
        refine List.pairwise_cons.mpr ⟨?_, h⟩
        intro b hb
        rcases List.mem_cons.mp hb with rfl | hb
        · exact h2
        · exact lt_trans h2 (hz b hb)
      · rw [if_neg h2]
        refine List.pairwise_cons.mpr ⟨?_, ih hzs⟩
        intro b hb
        rcases (mem_insertNoDup x zs b).mp hb with rfl | hb
        · rcases lt_trichotomy b.data z.data with h3 | h3 | h3
          · exact absurd h3 h2
          · exact absurd (congrArg String.mk h3) h1
          · exact h3
        · exact hz b hb

theorem mem_sortedSet_go (l : List String) :
    ∀ (acc : List String) (y : String),
      y ∈ l.foldl (fun acc x => insertNoDup x acc) acc ↔ y ∈ acc ∨ y ∈ l := by
  induction l with
  | nil => intro acc y; simp
  | cons z zs ih =>
    intro acc y
    simp only [List.foldl_cons, ih, mem_insertNoDup, List.mem_cons]
    tauto

theorem pairwise_sortedSet_go (l : List String) :
    ∀ acc : List String, acc.Pairwise (fun a b => a.data < b.data) →
      (l.foldl (fun acc x => insertNoDup x acc) acc).Pairwise
        (fun a b => a.data < b.data) := by
  induction l with
  | nil => intro acc h; simpa using h
  | cons z zs ih =>
    intro acc h
    exact ih _ (pairwise_insertNoDup z acc h)

theorem mem_sortedSet (l : List String) (y : String) :
    y ∈ sortedSet l ↔ y ∈ l := by
  unfold sortedSet
  rw [mem_sortedSet_go]
  simp

theorem pairwise_sortedSet (l : List String) :
    (sortedSet l).Pairwise (fun a b => a.data < b.data) :=
  pairwise_sortedSet_go l [] (List.Pairwise.nil)

theorem nodup_sortedSet (l : List String) : (sortedSet l).Nodup :=
  (pairwise_sortedSet l).imp (fun h => by
    intro he
    subst he
    exact absurd h (lt_irrefl _))

/-! ### Properties of the sort-by-index step -/

theorem insertByIdx_perm (x : Nat × List String) (l : List (Nat × List String)) :
    (insertByIdx x l).Perm (x :: l) := by
  induction l with
  | nil => exact List.Perm.refl _
  | cons y ys ih =>
    unfold insertByIdx
    by_cases h : x.1 ≤ y.1
    · rw [if_pos h]
    · rw [if_neg h]
      exact (ih.cons y).trans (List.Perm.swap x y ys)

theorem pairwise_insertByIdx (x : Nat × List String) (l : List (Nat × List String))
    (h : l.Pairwise (fun a b => a.1 ≤ b.1)) :
    (insertByIdx x l).Pairwise (fun a b => a.1 ≤ b.1) := by
  induction l with
  | nil => simp [insertByIdx]
  | cons y ys ih =>
    rcases List.pairwise_cons.mp h with ⟨hy, hys⟩
    unfold insertByIdx
    by_cases h1 : x.1 ≤ y.1
    · rw [if_pos h1]
      refine List.pairwise_cons.mpr ⟨?_, h⟩
      intro b hb
      rcases List.mem_cons.mp hb with rfl | hb
      · exact h1
      · exact le_trans h1 (hy b hb)
    · rw [if_neg h1]
      refine List.pairwise_cons.mpr ⟨?_, ih hys⟩
      intro b hb
      rcases ((insertByIdx_perm x ys).mem_iff.mp hb) with hb'
      rcases List.mem_cons.mp hb' with rfl | hb''
      · exact le_of_lt (Nat.lt_of_not_le h1)
      · exact hy b hb''

theorem sortResults_perm (l : List (Nat × List String)) :
    (sortResults l).Perm l := by
  induction l with
  | nil => exact List.Perm.refl _
  | cons x xs ih =>
    have : sortResults (x :: xs) = insertByIdx x (sortResults xs) := rfl
    rw [this]
    exact (insertByIdx_perm x (sortResults xs)).trans (ih.cons x)

theorem pairwise_sortResults (l : List (Nat × List String)) :
    (sortResults l).Pairwise (fun a b => a.1 ≤ b.1) := by
  induction l with
  | nil => simp [sortResults]
  | cons x xs ih => exact pairwise_insertByIdx x (sortResults xs) ih

/-- A list that is sorted (weakly) by index and is a permutation of a list
sorted strictly by index equals it: with pairwise-distinct indices the
sort-by-index result is unique, so the embedding's insertion sort and
Python's stable `list.sort(key=...)` agree on every list that occurs in a
run. -/
theorem sorted_key_eq :
    ∀ (s t : List (Nat × List String)), s.Perm t →
      s.Pairwise (fun a b => a.1 ≤ b.1) →
      t.Pairwise (fun a b => a.1 < b.1) → s = t := by
  intro s
  induction s with
  | nil =>
    intro t hp _ _
    exact hp.nil_eq
  | cons a s ih =>
    intro t hp hs ht
    cases t with
    | nil =>
      have := hp.symm.nil_eq
      exact absurd this (by simp)
    | cons b t =>
      rcases List.pairwise_cons.mp hs with ⟨hsa, hs'⟩
      rcases List.pairwise_cons.mp ht with ⟨htb, ht'⟩
      have hmem : a ∈ b :: t := hp.mem_iff.mp (List.mem_cons_self a s)
      rcases List.mem_cons.mp hmem with rfl | hat
      · rw [ih t hp.cons_inv hs' ht']
      · exfalso
        have hba : b.1 < a.1 := htb a hat
        have hbmem : b ∈ a :: s := hp.symm.mem_iff.mp (List.mem_cons_self b t)
        rcases List.mem_cons.mp hbmem with rfl | hbs
        · exact absurd hba (lt_irrefl _)
        · exact absurd hba (not_lt.mpr (hsa b hbs))

/-! ### Index assignment by `enumerate(race_urls, start=1)` -/

theorem le_fst_of_mem_enumFrom {α : Type} :
    ∀ (l : List α) (n : Nat) (p : Nat × α), p ∈ List.enumFrom n l → n ≤ p.1 := by
  intro l
  induction l with
  | nil => intro n p h; simp [List.enumFrom] at h
  | cons x xs ih =>
    intro n p h
    rw [List.enumFrom] at h
    rcases List.mem_cons.mp h with rfl | h'
    · exact le_refl n
    · exact Nat.le_of_succ_le (ih (n + 1) p h')

theorem enumFrom_pairwise_fst {α : Type} :
    ∀ (l : List α) (n : Nat),
      (List.enumFrom n l).Pairwise (fun a b => a.1 < b.1) := by
  intro l
  induction l with
  | nil => intro n; simp [List.enumFrom]
  | cons x xs ih =>
    intro n
    rw [List.enumFrom]
    refine List.pairwise_cons.mpr ⟨?_, ih (n + 1)⟩
    intro p hp
    exact Nat.lt_of_succ_le (le_fst_of_mem_enumFrom xs (n + 1) p hp)

theorem pairwise_canonicalResults (env : WorkerEnv) (code : String)
    (urls : List String) :
    (canonicalResults env code urls).Pairwise (fun a b => a.1 < b.1) := by
  unfold canonicalResults
  rw [List.pairwise_map]
  exact enumFrom_pairwise_fst urls 1

/-! ### Characterisation of one log line (`extract_dates` loop body) -/

theorem lineDate_eq_some (line d : String) :
    lineDate line = some d ↔
      2 ≤ (splitChar '/' line).length ∧
      (splitChar '/' line).getD ((splitChar '/' line).length - 2) "" = d ∧
      (splitChar '-' d).length = 3 := by
  simp only [lineDate]
  by_cases h1 : (splitChar '/' line).length < 2
  · rw [if_pos h1]
    constructor
    · intro h; cases h
    · rintro ⟨h, -, -⟩; omega
  · rw [if_neg h1]
    by_cases h2 : (splitChar '-'
        ((splitChar '/' line).getD ((splitChar '/' line).length - 2) "")).length = 3
    · rw [if_pos h2]
      constructor
      · intro h
        injection h with h
        exact ⟨by omega, h, h ▸ h2⟩
      · rintro ⟨-, hd, -⟩
        rw [hd]
    · rw [if_neg h2]
      constructor
      · intro h; cases h
      · rintro ⟨-, hd, h3⟩
        exact absurd (by rw [hd]; exact h3) h2

/-- C6: for every log, `extract_dates` returns exactly the ascending-sorted
(code-point lexicographic), duplicate-free list of the second-to-last
`/`-segments of those lines having at least two `/`-segments whose
second-to-last segment splits into exactly three `-`-parts; every other line
contributes nothing.  `extract_dates` takes no region input at all, so the
regions appearing in lines cannot affect the result. -/
theorem extract_dates_spec (logLines : List String) :
    (extract_dates logLines).Pairwise (fun a b => a.data < b.data) ∧
    (extract_dates logLines).Nodup ∧
    ∀ d, d ∈ extract_dates logLines ↔
      ∃ line ∈ logLines,
        2 ≤ (splitChar '/' line).length ∧
        (splitChar '/' line).getD ((splitChar '/' line).length - 2) "" = d ∧
        (splitChar '-' d).length = 3 := by
  refine ⟨pairwise_sortedSet _, nodup_sortedSet _, ?_⟩
  intro d
  unfold extract_dates
  rw [mem_sortedSet, List.mem_filterMap]
  constructor
  · rintro ⟨line, hl, hd⟩
    exact ⟨line, hl, (lineDate_eq_some line d).mp hd⟩
  · rintro ⟨line, hl, hd⟩
    exact ⟨line, hl, (lineDate_eq_some line d).mpr hd⟩

/-- Closed instance of `extract_dates_spec` at the log of the spec's own
example (two regions, one duplicated date). -/
theorem extract_dates_spec_w :
    (extract_dates ["dates/uk/2024-05-01/abc123", "dates/uk/2024-05-01/xyz789",
        "dates/ire/2024-05-02/foo"]).Nodup ∧
      extract_dates ["dates/uk/2024-05-01/abc123", "dates/uk/2024-05-01/xyz789",
        "dates/ire/2024-05-02/foo"] = ["2024-05-01", "2024-05-02"] :=
  ⟨(extract_dates_spec _).2.1, by decide⟩

/-- C1: in any run where no worker raises, and whatever order the concurrent
jobs complete in (any permutation `completed` of the run's batch results),
the main artifact's lines are the csv header followed by the rows in the
order induced by the input URL sequence — all rows of a job with a smaller
input index precede all rows of any job with a larger index — because
`scrape_races` buffers every batch result and sorts the collection by index
before writing anything. -/
theorem output_rows_in_input_order (env : WorkerEnv) (code csv_header : String)
    (urls : List String) (completed : List (Nat × List String))
    (hok : ∀ p ∈ List.enumFrom 1 urls, (process env code p.1 p.2).isOk = true)
    (hperm : completed.Perm (canonicalResults env code urls)) :
    writeOutput csv_header completed =
      csv_header :: (canonicalResults env code urls).flatMap (fun r => r.2) := by
  unfold writeOutput
  have h1 : (sortResults completed).Perm (canonicalResults env code urls) :=
    (sortResults_perm completed).trans hperm
  rw [sorted_key_eq (sortResults completed) (canonicalResults env code urls) h1
    (pairwise_sortResults completed) (pairwise_canonicalResults env code urls)]

/-- Closed instance of `output_rows_in_input_order`: two jobs completing in
reversed order still emit in input order. -/
theorem output_rows_in_input_order_w :
    writeOutput "hdr" [(2, ["b"]), (1, ["a"])] =
      "hdr" :: (canonicalResults envEcho "flat" ["a", "b"]).flatMap (fun r => r.2) :=
  output_rows_in_input_order envEcho "flat" "hdr" ["a", "b"] [(2, ["b"]), (1, ["a"])]
    (by decide) (by decide)

/-- C2 is refuted as stated: the worker CAN propagate an exception past its
boundary.  `html.fromstring(resp.content)` (rpscrape.py:140) sits outside
both try blocks, so when the document builder raises (as lxml does on an
empty body), `process` raises instead of returning `(index, [])`, and
`future.result()` re-raises it in the aggregation loop, aborting the batch. -/
theorem process_raises_past_boundary :
    process envCrash "flat" 1 "url" = .error "ParserError: Document is empty" := rfl

/-- C2 (amended): the worker always returns a pair whose first component is
its own index when it returns at all; an exception during the network fetch,
an exception during record extraction, and a void-race signal each yield
`(index, [])`; the only exception that can propagate past the worker
boundary is one raised by the document-tree builder (`html.fromstring`),
which is outside both try blocks. -/
theorem process_boundary (env : WorkerEnv) (code : String) (idx : Nat) (url : String) :
    (∀ v, process env code idx url = .ok v → v.1 = idx) ∧
    (∀ e, env.fetch url = .error e → process env code idx url = .ok (idx, [])) ∧
    (∀ content doc, env.fetch url = .ok content → env.fromstring content = .ok doc →
      (env.parseRace doc = .voidRace → process env code idx url = .ok (idx, [])) ∧
      (∀ m, env.parseRace doc = .parseFailure m →
        process env code idx url = .ok (idx, []))) ∧
    (∀ e, process env code idx url = .error e →
      ∃ content, env.fetch url = .ok content ∧ env.fromstring content = .error e) := by
  refine ⟨?_, ?_, ?_, ?_⟩
  · intro v hv
    cases hfetch : env.fetch url with
    | error e =>
      simp only [process, hfetch, Except.ok.injEq] at hv
      subst hv; rfl
    | ok content =>
      cases hfs : env.fromstring content with
      | error e =>
        simp only [process, hfetch, hfs] at hv
        exact Except.noConfusion hv
      | ok doc =>
        cases hpr : env.parseRace doc with
        | voidRace =>
          simp only [process, hfetch, hfs, hpr, Except.ok.injEq] at hv
          subst hv; rfl
        | parseFailure m =>
          simp only [process, hfetch, hfs, hpr, Except.ok.injEq] at hv
          subst hv; rfl
        | parsed r_type csv_data =>
          simp only [process, hfetch, hfs, hpr] at hv
          split_ifs at hv <;>
            (simp only [Except.ok.injEq] at hv; subst hv; rfl)
  · intro e he
    simp only [process, he]
  · intro content doc hc hdoc
    constructor
    · intro hvoid
      simp only [process, hc, hdoc, hvoid]
    · intro m hfail
      simp only [process, hc, hdoc, hfail]
  · intro e he
    cases hfetch : env.fetch url with
    | error e2 =>
      simp only [process, hfetch] at he
      exact Except.noConfusion he
    | ok content =>
      cases hfs : env.fromstring content with
      | error e2 =>
        simp only [process, hfetch, hfs, Except.error.injEq] at he
        subst he
        exact ⟨content, rfl, hfs⟩
      | ok doc =>
        cases hpr : env.parseRace doc with
        | voidRace =>
          simp only [process, hfetch, hfs, hpr] at he
          exact Except.noConfusion he
        | parseFailure m =>
          simp only [process, hfetch, hfs, hpr] at he
          exact Except.noConfusion he
        | parsed r_type csv_data =>
          simp only [process, hfetch, hfs, hpr] at he
          split_ifs at he

/-- Closed instance of `process_boundary`: a failed fetch degrades the job to
`(index, [])` rather than raising. -/
theorem process_boundary_w : process envFetchFail "flat" 1 "u" = .ok (1, []) :=
  (process_boundary envFetchFail "flat" 1 "u").2.1 "ConnectionError" rfl

/-- C7: for a successfully fetched and parsed race, discipline `flat` keeps
the job's records iff the race type is exactly `Flat`, and discipline
`jumps` keeps them iff the race type is one of `{Chase, Hurdle, NH Flat}`;
a mismatch yields `(index, [])`, exactly like a void race
(rpscrape.py:154-159). -/
theorem discipline_filter (env : WorkerEnv) (idx : Nat)
    (url content doc r_type : String) (csv_data : List String)
    (hf : env.fetch url = .ok content) (hd : env.fromstring content = .ok doc)
    (hp : env.parseRace doc = .parsed r_type csv_data) :
    process env "flat" idx url =
      .ok (idx, if r_type = "Flat" then csv_data else []) ∧
    process env "jumps" idx url =
      .ok (idx, if r_type ∈ jumpsTypes then csv_data else []) := by
  constructor
  · simp only [process, hf, hd, hp]
    by_cases h : r_type = "Flat"
    · simp [h]
    · simp [h]
  · simp only [process, hf, hd, hp]
    by_cases h : r_type ∈ jumpsTypes
    · simp [h]
    · simp [h]

/-- Closed instance of `discipline_filter`: a `Hurdle` race under `jumps`. -/
theorem discipline_filter_w :
    process (envRace "Hurdle") "jumps" 1 "u" =
      .ok (1, if "Hurdle" ∈ jumpsTypes then ["row"] else []) :=
  (discipline_filter (envRace "Hurdle") 1 "u" "u" "u" "Hurdle" ["row"] rfl rfl rfl).2

/-! ### The retry driver's mutating path -/

/-- When the log exists, the region resolves to a non-empty value, and at
least one date is recovered, `retry_failed.main` takes exactly the retry
path: backup copy, truncation, then the per-date sub-runs. -/
theorem retryMain_mutating (logPath : String) (logLines : List String)
    (backup0 : Option (List String)) (parts : List String)
    (regionArg : Option String) (jobsArg : Int) (region : String)
    (hr : resolveRegion regionArg parts = .ok (some region)) (hne : region ≠ "")
    (hd : extract_dates logLines ≠ []) :
    retryMain logPath true logLines backup0 parts regionArg jobsArg =
      ⟨REvent.backupCopy (backupPathOf logPath) :: REvent.truncateLog ::
          ((extract_dates logLines).map
              (fun d => REvent.subRun (replaceChar '-' '/' d) region (clampJobs jobsArg))
            ++ [REvent.reportDone]),
        [], some logLines, some 0⟩ := by
  have hie : (extract_dates logLines).isEmpty = false := by
    cases hx : extract_dates logLines with
    | nil => exact absurd hx hd
    | cons a l => rfl
  simp [retryMain, hr, hne, hie]

/-- C3: whenever the retry driver proceeds to retry work (the log exists, a
region is resolved, and at least one date is recovered), its trace is
exactly: copy the log byte-for-byte to the fixed sibling backup path
(the log path with `.bak` appended after its existing extension), then
truncate the log, and only then launch the per-date sub-runs; after the
invocation the backup path holds the exact original content and the log is
empty — and the trace order shows it was emptied before any sub-run began. -/
theorem retry_backup_before_truncate (logPath : String) (logLines : List String)
    (backup0 : Option (List String)) (parts : List String)
    (regionArg : Option String) (jobsArg : Int) (region : String)
    (hr : resolveRegion regionArg parts = .ok (some region)) (hne : region ≠ "")
    (hd : extract_dates logLines ≠ []) :
    retryMain logPath true logLines backup0 parts regionArg jobsArg =
      ⟨REvent.backupCopy (backupPathOf logPath) :: REvent.truncateLog ::
          ((extract_dates logLines).map
              (fun d => REvent.subRun (replaceChar '-' '/' d) region (clampJobs jobsArg))
            ++ [REvent.reportDone]),
        [], some logLines, some 0⟩ :=
  retryMain_mutating logPath logLines backup0 parts regionArg jobsArg region hr hne hd

/-- Closed instance of `retry_backup_before_truncate`, with the region
inferred from the log path. -/
theorem retry_backup_before_truncate_w :
    retryMain "fails.log" true ["dates/gb/2024-05-01/123"] none
        ["data", "dates", "gb", "fails.log"] none 6 =
      ⟨[REvent.backupCopy "fails.log.bak", REvent.truncateLog,
          REvent.subRun "2024/05/01" "gb" 6, REvent.reportDone],
        [], some ["dates/gb/2024-05-01/123"], some 0⟩ :=
  (retry_backup_before_truncate "fails.log" ["dates/gb/2024-05-01/123"] none
      ["data", "dates", "gb", "fails.log"] none 6 "gb" rfl (by decide)
      (by decide)).trans (by decide)

/-- C4: if the log file does not exist, or no usable region results from
resolution (none supplied and inference yields nothing), the retry
invocation is fatal — the process does not exit 0 (it exits 1, or dies on
the uncaught IndexError when `dates` is the last path segment) — and no log
mutation has occurred: no backup-copy or truncate event appears, and the
log content and any pre-existing backup are unchanged. -/
theorem retry_fatal_unmutated (logPath : String) (logExists : Bool)
    (logLines : List String) (backup0 : Option (List String))
    (parts : List String) (regionArg : Option String) (jobsArg : Int)
    (h : logExists = false ∨
      resolveRegion regionArg parts = .ok none ∨
      resolveRegion regionArg parts = .error ()) :
    (retryMain logPath logExists logLines backup0 parts regionArg jobsArg).log
        = logLines ∧
    (retryMain logPath logExists logLines backup0 parts regionArg jobsArg).backup
        = backup0 ∧
    (retryMain logPath logExists logLines backup0 parts regionArg jobsArg).exit
        ≠ some 0 ∧
    (retryMain logPath logExists logLines backup0 parts regionArg jobsArg).events.all
        (fun e => !isMutation e) = true := by
  rcases h with h | h | h
  · subst h
    simp [retryMain, isMutation]
  · cases logExists
    · simp [retryMain, isMutation]
    · simp [retryMain, h, isMutation]
  · cases logExists
    · simp [retryMain, isMutation]
    · simp [retryMain, h, isMutation]

/-- Closed instance of `retry_fatal_unmutated` at a missing log file. -/
theorem retry_fatal_unmutated_w :
    (retryMain "missing.log" false ["x"] none [] none 6).log = ["x"] ∧
    (retryMain "missing.log" false ["x"] none [] none 6).backup = none ∧
    (retryMain "missing.log" false ["x"] none [] none 6).exit ≠ some 0 ∧
    (retryMain "missing.log" false ["x"] none [] none 6).events.all
        (fun e => !isMutation e) = true :=
  retry_fatal_unmutated "missing.log" false ["x"] none [] none 6 (Or.inl rfl)

/-- C5: every requested worker count is clamped into `[1, 10]` as
`max(1, min(10, requested))`; the scrape pipeline creates its pool with the
clamped value, and every sub-run the retry driver launches carries the
clamped value. -/
theorem worker_count_clamped (j : Int) (logPath : String) (logLines : List String)
    (backup0 : Option (List String)) (parts : List String)
    (regionArg : Option String) (u : String) (urls : List String)
    (folder file ext code hdr : String) (fb sb : Bool)
    (completed : List (Nat × List String)) :
    (1 ≤ clampJobs j ∧ clampJobs j ≤ 10 ∧ clampJobs j = max 1 (min 10 j)) ∧
    ScrapeEvent.pool (clampJobs j) ∈
      scrape_races (u :: urls) folder file ext code hdr fb sb j completed ∧
    (∀ d reg jv, REvent.subRun d reg jv ∈
        (retryMain logPath true logLines backup0 parts regionArg j).events →
      jv = clampJobs j) := by
  refine ⟨⟨le_max_left 1 _, max_le (by norm_num) (min_le_left 10 j), rfl⟩, ?_, ?_⟩
  · unfold scrape_races
    rw [if_neg (by simp)]
    exact List.mem_append_left _
      (List.mem_append_right _ (List.mem_cons_self _ _))
  · intro d reg jv hmem
    unfold retryMain at hmem
    cases hres : resolveRegion regionArg parts with
    | error val =>
      rw [hres] at hmem
      simp at hmem
    | ok ro =>
      rw [hres] at hmem
      by_cases hro : ro.getD "" = ""
      · simp [hro] at hmem
      · by_cases hie : (extract_dates logLines).isEmpty
        · simp [hro, hie] at hmem
        · simp [hro, hie, List.mem_map] at hmem
          rcases hmem with ⟨x, -, -, -, hjv⟩
          exact hjv.symm

/-- Closed instance of `worker_count_clamped` at a requested count of 42. -/
theorem worker_count_clamped_w :
    1 ≤ clampJobs 42 ∧ clampJobs 42 ≤ 10 ∧ clampJobs 42 = max 1 (min 10 42) :=
  (worker_count_clamped 42 "log" [] none [] none "u" [] "f" "n" "e" "c" "h"
    false false []).1

/-- C8 is refuted in its side-dataset part: with an empty URL sequence and
enrichment both requested and enabled, `scrape_races` still builds the side
dataset (a separate network fetch for the joiner) and writes the side
artifact, because the betfair block (rpscrape.py:106-121) runs before the
empty-input check (rpscrape.py:123-126). -/
theorem scrape_empty_still_builds_side_dataset :
    ScrapeEvent.betfairBuild [] ∈
      scrape_races [] "folder" "name" "csv" "flat" "hdr" true true 3 [] := by
  decide

/-- C8 (amended): with an empty URL sequence the call returns normally and
reports zero work; its whole trace is the output-directory creation, the
side-dataset events exactly when enrichment is requested and enabled, and
the zero-work report — so no fetch job is submitted, no worker pool is
created, and the main output artifact is never written; the side-dataset
build, however, is not skipped, since it precedes the empty-input check. -/
theorem scrape_empty_full_trace (folder file ext code hdr : String)
    (fb sb : Bool) (j : Int) (completed : List (Nat × List String)) :
    scrape_races [] folder file ext code hdr fb sb j completed =
      ScrapeEvent.mkDir ("../data/" ++ folder ++ "/" ++ code) ::
        ((if fb && sb then
            [ScrapeEvent.betfairBuild [],
             ScrapeEvent.mkDir ("../data/betfair/" ++ folder ++ "/" ++ code),
             ScrapeEvent.betfairWrite
               ("../data/betfair/" ++ folder ++ "/" ++ code ++ "/" ++ file ++ ".csv")]
          else []) ++ [ScrapeEvent.reportNoRaces]) := by
  simp [scrape_races]

/-! ### URL discovery -/

theorem raceUrl_no_space_no_apostrophe (course_id course : String)
    (race : RaceEntry) :
    ' ' ∉ (raceUrl course_id course race).data ∧
    apostrophe ∉ (raceUrl course_id course race).data := by
  unfold raceUrl removeChar replaceChar
  constructor
  · intro hmem
    simp only [List.mem_filter, List.mem_map] at hmem
    obtain ⟨⟨c, -, hc⟩, -⟩ := hmem
    by_cases h : c = ' '
    · rw [if_pos h] at hc
      exact absurd hc (by decide)
    · rw [if_neg h] at hc
      exact h hc
  · intro hmem
    simp only [List.mem_filter] at hmem
    obtain ⟨-, hne⟩ := hmem
    simp at hne

/-- C9: each of the two URL-discovery operations returns a duplicate-free
list of URL strings sorted ascending in the code-point lexicographic order
(they accumulate into a set and return `sorted(...)`), and in the
course/year mode every produced URL has had spaces replaced by hyphens and
apostrophes removed, so it contains neither character. -/
theorem discovery_sorted_dedup (listing : String → String → List RaceEntry)
    (tracks : List (String × String)) (years : List String)
    (anchors : String → List String) (courseIds : List String)
    (dates : List String) :
    (get_race_urls listing tracks years).Pairwise (fun a b => a.data < b.data) ∧
    (get_race_urls listing tracks years).Nodup ∧
    (get_race_urls_date anchors courseIds dates).Pairwise
      (fun a b => a.data < b.data) ∧
    (get_race_urls_date anchors courseIds dates).Nodup ∧
    ∀ u ∈ get_race_urls listing tracks years,
      ' ' ∉ u.data ∧ apostrophe ∉ u.data := by
  refine ⟨pairwise_sortedSet _, nodup_sortedSet _, pairwise_sortedSet _,
    nodup_sortedSet _, ?_⟩
  intro u hu
  rw [get_race_urls, mem_sortedSet] at hu
  simp only [List.mem_flatMap, List.mem_map] at hu
  obtain ⟨t, -, y, -, r, -, rfl⟩ := hu
  exact raceUrl_no_space_no_apostrophe t.1 t.2 r

/-- Closed instance of `discovery_sorted_dedup` at concrete listings. -/
theorem discovery_sorted_dedup_w :
    (get_race_urls listingC [("2", "ascot")] ["2024"]).Nodup ∧
    (get_race_urls_date anchorsC ["2", "9"] ["2024-05-01"]).Nodup :=
  ⟨(discovery_sorted_dedup listingC [("2", "ascot")] ["2024"] anchorsC
      ["2", "9"] ["2024-05-01"]).2.1,
    (discovery_sorted_dedup listingC [("2", "ascot")] ["2024"] anchorsC
      ["2", "9"] ["2024-05-01"]).2.2.2.1⟩

/-- C10: the backup is always written to the one fixed path derived from the
log path (the log's suffix with `.bak` appended) and silently overwrites
whatever file is there; after two consecutive retry invocations on the same
log that both reach the backup step, the surviving backup holds only the
second invocation's pre-truncation content — whenever the two contents
differ, the failures recorded only in the first run's backup are lost. -/
theorem backup_overwritten (logPath : String) (c1 c2 : List String)
    (backup0 : Option (List String)) (parts : List String) (r : String)
    (jobsArg : Int) (hr : r ≠ "") (h1 : extract_dates c1 ≠ [])
    (h2 : extract_dates c2 ≠ []) :
    (retryMain logPath true c1 backup0 parts (some r) jobsArg).backup = some c1 ∧
    REvent.backupCopy (backupPathOf logPath) ∈
      (retryMain logPath true c1 backup0 parts (some r) jobsArg).events ∧
    (retryMain logPath true c2
        (retryMain logPath true c1 backup0 parts (some r) jobsArg).backup
        parts (some r) jobsArg).backup = some c2 ∧
    REvent.backupCopy (backupPathOf logPath) ∈
      (retryMain logPath true c2
          (retryMain logPath true c1 backup0 parts (some r) jobsArg).backup
          parts (some r) jobsArg).events ∧
    (c1 ≠ c2 →
      (retryMain logPath true c2
          (retryMain logPath true c1 backup0 parts (some r) jobsArg).backup
          parts (some r) jobsArg).backup ≠ some c1) := by
  have hres : resolveRegion (some r) parts = .ok (some r) := rfl
  have e2 := retryMain_mutating logPath c2
      (retryMain logPath true c1 backup0 parts (some r) jobsArg).backup
      parts (some r) jobsArg r hres hr h2
  have e1 := retryMain_mutating logPath c1 backup0 parts (some r) jobsArg r
      hres hr h1
  rw [e2, e1]
  refine ⟨rfl, List.mem_cons_self _ _, rfl, List.mem_cons_self _ _, ?_⟩
  intro hne heq
  injection heq with heq
  exact hne heq.symm

/-- Closed instance of `backup_overwritten`: the second run's backup replaces
the first run's. -/
theorem backup_overwritten_w :
    (retryMain "fails.log" true ["dates/gb/2024-06-02/b"]
        (retryMain "fails.log" true ["dates/gb/2024-05-01/a"] none []
          (some "gb") 6).backup
        [] (some "gb") 6).backup = some ["dates/gb/2024-06-02/b"] :=
  (backup_overwritten "fails.log" ["dates/gb/2024-05-01/a"]
    ["dates/gb/2024-06-02/b"] none [] "gb" 6 (by decide) (by decide)
    (by decide)).2.2.1
